import Mathlib

/-!
Shallow embedding of `src/poem/cli.py`: the registry row projectors
(`_get_lines`, `_get_model_lines`), the listing commands, the
`github_readme` composite command, the `parameters` hyperparameter
aggregation, and the dynamic `train` subcommand registration loop.

Python strings are modelled as Lean `String`s (code-point lists), with
Python's `str.find`, slicing, `str.capitalize` and `str.splitlines()[0]`
given explicit total/optional semantics.  Python `None` is modelled by
`Option.none`; an expression that raises an exception is modelled by a
function returning `none` at that input.
-/

namespace Poem

/-- Python `str.find(c)` index search on the character list: index of the
first occurrence, or `none`. -/
def findIdxOpt (c : Char) : List Char → Option Nat
  | [] => none
  | a :: as => if a = c then some 0 else (findIdxOpt c as).map Nat.succ

/-- Python `str.find(c)`: the index of the first occurrence of `c`, or `-1`
when `c` does not occur (the "not found" sentinel). -/
def pyFind (s : String) (c : Char) : Int :=
  match findIdxOpt c s.data with
  | some n => (n : Int)
  | none => -1

/-- Effective index of a Python slice bound: a negative bound counts from the
end of the string; the result is clamped below at `0`. -/
def pyIdx (n : Nat) (i : Int) : Nat :=
  (if i < 0 then (n : Int) + i else i).toNat

/-- Python slice `s[a:b]` (step 1) on a character list. -/
def pySliceL (s : List Char) (a b : Int) : List Char :=
  (s.take (pyIdx s.length b)).drop (pyIdx s.length a)

/-- Python slice `s[a:b]` (step 1) on a string. -/
def pySlice (s : String) (a b : Int) : String :=
  (pySliceL s.data a b).asString

/-- Python `str.capitalize()`: first character uppercased, the rest
lowercased. -/
def pyCapitalize (s : String) : String :=
  match s.data with
  | [] => ""
  | c :: cs => (c.toUpper :: cs.map Char.toLower).asString

/-- A character that terminates the first line for `str.splitlines`. -/
def isLineBreak (c : Char) : Bool :=
  c = '\n' || c = '\r'

/-- Python `s.splitlines()[0]`: the first line of a string, or `none` when
the string is empty (in which case the Python indexing raises `IndexError`).
-/
def splitlinesHead (s : String) : Option String :=
  match s.data with
  | [] => none
  | _ :: _ => some ((s.data.takeWhile (fun c => !(isLineBreak c))).asString)

/-- A model registry entry: its `__doc__` attribute (`none` models Python
`None`). -/
structure ModelEntry where
  doc : Option String
deriving DecidableEq

/-- A non-model registry entry, as `_get_lines` sees it: its `__name__`
attribute when present, its `__doc__`, and its `__class__.__doc__`. -/
structure Entry where
  nameAttr : Option String
  doc : Option String
  classDoc : Option String
deriving DecidableEq

/-- The citation extraction inlined in `_get_model_lines` (lines 58, 62, 65
of `cli.py`): `l, r = line.find('['), line.find(']')`, then
`author, year = line[1 + l: r - 4], line[r - 4: r]`. -/
def parseCitation (line : String) : String × String :=
  let l := pyFind line '['
  let r := pyFind line ']'
  (pySlice line (1 + l) (r - 4), pySlice line (r - 4) r)

/-- One yielded row of `_get_model_lines` given the (already extracted)
first documentation line.  Fields are `Option String`, with `none` standing
for Python `None`. -/
def modelRowOfLine (tablefmt name line : String) : List (Option String) :=
  let l := pyFind line '['
  let r := pyFind line ']'
  if tablefmt = "rst" then
    [some name, some (":class:`poem.models." ++ name ++ "`"),
      some (pySlice line l (r + 2))]
  else if tablefmt = "github" then
    [some name, some ("`poem.models." ++ name ++ "`"),
      some (pyCapitalize (parseCitation line).1 ++ " *et al.*, " ++
        (parseCitation line).2)]
  else
    [some name, some (pyCapitalize (parseCitation line).1 ++ ", " ++
      (parseCitation line).2)]

/-- The body of the `_get_model_lines` loop for one entry:
`line = str(model.__doc__.splitlines()[0])` raises when `__doc__` is `None`
(`AttributeError`) or empty (`IndexError`); otherwise one row is yielded. -/
def modelLine (tablefmt name : String) (m : ModelEntry) : Option (List (Option String)) :=
  match m.doc with
  | none => none
  | some d => (splitlinesHead d).map (modelRowOfLine tablefmt name)

/-- Python string `<=`: lexicographic comparison of the code-point lists.
-/
def pyLeL : List Char → List Char → Bool
  | [], _ => true
  | _ :: _, [] => false
  | a :: as, b :: bs =>
    if a.toNat < b.toNat then true
    else if b.toNat < a.toNat then false
    else pyLeL as bs

/-- Python string comparison `a <= b` (by Unicode code points), as `sorted`
uses it. -/
def pyStrLe (a b : String) : Bool :=
  pyLeL a.data b.data

/-- Python `sorted(d.items())` for a name-keyed mapping: a stable sort by key.
Keys are unique in a Python `dict`, so the tuple comparison never reaches
the second component. -/
def sortByName {α : Type} (l : List (String × α)) : List (String × α) :=
  List.insertionSort (fun p q => pyStrLe p.1 q.1 = true) l

/-- Sequencing of a generator over a list: `some` of all rows when every
entry yields one, `none` as soon as an entry raises. -/
def mapRows {α β : Type} (f : α → Option β) : List α → Option (List β)
  | [] => some []
  | p :: ps =>
    match f p, mapRows f ps with
    | some r, some rs => some (r :: rs)
    | _, _ => none

/-- The generator `_get_model_lines(tablefmt)` over a model registry. -/
def getModelLines (tablefmt : String) (models : List (String × ModelEntry)) :
    Option (List (List (Option String))) :=
  mapRows (fun p => modelLine tablefmt p.1 p.2) (sortByName models)

/-- The body of the `_get_lines` loop for one entry (lines 152-165 of
`cli.py`), with the `try`/`except AttributeError` of the `github` branch
made explicit: accessing `__name__` on an entry without one, or
`.splitlines` on a `None` documentation string, triggers the fallback; an
empty documentation string raises an uncaught `IndexError` (`none`). -/
def getLine (submodule tablefmt name : String) (v : Entry) : Option (List (Option String)) :=
  if tablefmt = "rst" then
    some [some name, some (":class:`poem." ++ submodule ++ "." ++ name ++ "`")]
  else if tablefmt = "github" then
    match v.nameAttr with
    | none => some [some name, some ("`poem." ++ submodule ++ "." ++ name ++ "`"), v.classDoc]
    | some ref =>
      match v.doc with
      | none => some [some name, some ("`poem." ++ submodule ++ "." ++ name ++ "`"), v.classDoc]
      | some d =>
        match splitlinesHead d with
        | none => none
        | some fl => some [some name, some ("`poem." ++ submodule ++ "." ++ ref ++ "`"), some fl]
  else
    match v.doc with
    | none => none
    | some d => (splitlinesHead d).map (fun fl => [some name, some fl])

/-- The generator `_get_lines(d, tablefmt, submodule)`. -/
def getLines (d : List (String × Entry)) (tablefmt submodule : String) :
    Option (List (List (Option String))) :=
  mapRows (fun p => getLine submodule tablefmt p.1 p.2) (sortByName d)

/-- Headers of the `models` command (line 47 of `cli.py`). -/
def modelsHeaders (tablefmt : String) : List String :=
  if tablefmt = "rst" ∨ tablefmt = "github" then ["Name", "Reference", "Citation"]
  else ["Name", "Citation"]

/-- The `models` listing command: the rows handed to `tabulate` together
with the chosen headers. -/
def models (ms : List (String × ModelEntry)) (tablefmt : String) :
    Option (List String × List (List (Option String))) :=
  (getModelLines tablefmt ms).map (fun lines => (modelsHeaders tablefmt, lines))

/-- Headers of the non-model listing commands (lines 94, 107, 120, 133, 146
of `cli.py`): two headers only for the exact string `"plain"`. -/
def nonModelHeaders (tablefmt : String) : List String :=
  if tablefmt = "plain" then ["Name", "Description"]
  else ["Name", "Reference", "Description"]

/-- The `datasets` listing command. -/
def datasets (d : List (String × Entry)) (tablefmt : String) :
    Option (List String × List (List (Option String))) :=
  (getLines d tablefmt "datasets").map (fun lines => (nonModelHeaders tablefmt, lines))

/-- The `training` listing command. -/
def training (d : List (String × Entry)) (tablefmt : String) :
    Option (List String × List (List (Option String))) :=
  (getLines d tablefmt "training").map (fun lines => (nonModelHeaders tablefmt, lines))

/-- The `samplers` listing command. -/
def samplers (d : List (String × Entry)) (tablefmt : String) :
    Option (List String × List (List (Option String))) :=
  (getLines d tablefmt "sampling").map (fun lines => (nonModelHeaders tablefmt, lines))

/-- The `evaluators` listing command. -/
def evaluators (d : List (String × Entry)) (tablefmt : String) :
    Option (List String × List (List (Option String))) :=
  (getLines d tablefmt "evaluators").map (fun lines => (nonModelHeaders tablefmt, lines))

/-- The `metrics` listing command (note: the source passes the submodule
string `'evaluators'` for metrics as well, line 143 of `cli.py`). -/
def metrics (d : List (String × Entry)) (tablefmt : String) :
    Option (List String × List (List (Option String))) :=
  (getLines d tablefmt "evaluators").map (fun lines => (nonModelHeaders tablefmt, lines))

/-- The `github_readme` composite command, as the sequence of strings handed
to `click.echo` (lines 172-181 of `cli.py`).  `render` stands for the
external `tabulate` renderer; the literal `'\n'` prefixes of the later
headers are the single blank separator lines, since `click.echo` itself
appends one newline to each payload. -/
def githubReadme (render : List (List (Option String)) → String)
    (ms : List (String × ModelEntry)) (ds ts es mets : List (String × Entry)) :
    Option (List String) :=
  match getModelLines "github" ms, getLines ds "github" "datasets",
        getLines ts "github" "training", getLines es "github" "evaluators",
        getLines mets "github" "evaluators" with
  | some m, some d, some t, some e, some mt =>
    some ["### Models\n", render m,
          "\n### Data Sets\n", render d,
          "\n### Training Modes\n", render t,
          "\n### Evaluators\n", render e,
          "\n### Metrics\n", render mt]
  | _, _, _, _, _ => none

/-- The aggregation of the `parameters` command (lines 74-79 of `cli.py`):
`base_parameters = set(BaseModule.__init__.__annotations__) | {'init'}`,
then the `(k, v)` pairs of `BaseModule._hyperparameter_usage` with
`k not in base_parameters`, sorted; each value set is printed sorted (line
82).  Dictionary keys are unique, so the tuple sort never compares values.
-/
def parametersOutput (baseAnnotations : List String)
    (usage : List (String × List String)) : List (String × List String) :=
  let baseParameters := baseAnnotations ++ ["init"]
  (List.insertionSort (fun p q => pyStrLe p.1 q.1 = true)
    (usage.filter (fun p => !(baseParameters.contains p.1)))).map
    (fun p => (p.1, List.insertionSort (fun a b => pyStrLe a b = true) p.2))

/-- The module-level registration loop (lines 190-191 of `cli.py`):
`for cls in models_dict.values(): train.add_command(build_cli_from_cls(cls))`.
`build` stands for the external `build_cli_from_cls`; `cmds` is the command
list of the `train` group before the loop runs. -/
def registerAll {M C : Type} (build : M → C) (modelValues : List (String × M))
    (cmds : List C) : List C :=
  modelValues.foldl (fun acc p => acc ++ [build p.2]) cmds

/-- Decidable well-formedness of a documentation attribute: present and
non-empty, so that `__doc__.splitlines()[0]` cannot raise. -/
def docOk : Option String → Bool
  | some d => if d = "" then false else true
  | none => false

/-! ### Helper lemmas about the sorting and sequencing combinators -/

lemma sortByName_perm {α : Type} (l : List (String × α)) :
    List.Perm (sortByName l) l :=
  List.perm_insertionSort _ l

lemma pyLeL_le_head (x y : Char) (xs ys : List Char)
    (h : pyLeL (x :: xs) (y :: ys) = true) : x.toNat ≤ y.toNat := by
  by_contra hc
  push_neg at hc
  have n1 : ¬ x.toNat < y.toNat := by omega
  simp [pyLeL, n1, hc] at h

lemma pyLeL_total : ∀ (a b : List Char), pyLeL a b = true ∨ pyLeL b a = true := by
  intro a
  induction a with
  | nil => intro b; left; rfl
  | cons x xs ih =>
    intro b
    cases b with
    | nil => right; rfl
    | cons y ys =>
      rcases Nat.lt_trichotomy x.toNat y.toNat with h | h | h
      · left; simp [pyLeL, h]
      · have n1 : ¬ x.toNat < y.toNat := by omega
        have n2 : ¬ y.toNat < x.toNat := by omega
        rcases ih ys with hc | hc
        · left; simp [pyLeL, n1, n2, hc]
        · right; simp [pyLeL, n1, n2, hc]
      · right; simp [pyLeL, h]

lemma pyLeL_trans : ∀ (a b c : List Char), pyLeL a b = true → pyLeL b c = true →
    pyLeL a c = true := by
  intro a
  induction a with
  | nil => intro b c _ _; rfl
  | cons x xs ih =>
    intro b c hab hbc
    cases b with
    | nil => simp [pyLeL] at hab
    | cons y ys =>
      cases c with
      | nil => simp [pyLeL] at hbc
      | cons z zs =>
        have hxy : x.toNat ≤ y.toNat := pyLeL_le_head x y xs ys hab
        have hyz : y.toNat ≤ z.toNat := pyLeL_le_head y z ys zs hbc
        by_cases hxz : x.toNat < z.toNat
        · simp [pyLeL, hxz]
        · have e1 : x.toNat = y.toNat := by omega
          have e2 : y.toNat = z.toNat := by omega
          have n1 : ¬ x.toNat < y.toNat := by omega
          have n2 : ¬ y.toNat < x.toNat := by omega
          have n3 : ¬ y.toNat < z.toNat := by omega
          have n4 : ¬ z.toNat < y.toNat := by omega
          have n5 : ¬ z.toNat < x.toNat := by omega
          simp [pyLeL, n1, n2] at hab
          simp [pyLeL, n3, n4] at hbc
          simp [pyLeL, hxz, n5]
          exact ih ys zs hab hbc

lemma pyStrLe_total (a b : String) : pyStrLe a b = true ∨ pyStrLe b a = true :=
  pyLeL_total a.data b.data

lemma pyStrLe_trans (a b c : String) (h1 : pyStrLe a b = true)
    (h2 : pyStrLe b c = true) : pyStrLe a c = true :=
  pyLeL_trans a.data b.data c.data h1 h2

lemma sortByName_sorted {α : Type} (l : List (String × α)) :
    List.Sorted (fun p q : String × α => pyStrLe p.1 q.1 = true) (sortByName l) := by
  haveI : IsTotal (String × α) (fun p q => pyStrLe p.1 q.1 = true) :=
    ⟨fun a b => pyStrLe_total a.1 b.1⟩
  haveI : IsTrans (String × α) (fun p q => pyStrLe p.1 q.1 = true) :=
    ⟨fun _ _ _ h1 h2 => pyStrLe_trans _ _ _ h1 h2⟩
  exact List.sorted_insertionSort _ l

lemma sortByName_names_sorted {α : Type} (l : List (String × α)) :
    List.Sorted (fun a b : String => pyStrLe a b = true) ((sortByName l).map Prod.fst) := by
  have h := sortByName_sorted l
  simpa [List.Sorted, List.pairwise_map] using h

lemma mapRows_some_of_forall {α β : Type} (f : α → Option β) (l : List α)
    (h : ∀ p ∈ l, (f p).isSome) : ∃ rows, mapRows f l = some rows := by
  induction l with
  | nil => exact ⟨[], rfl⟩
  | cons p ps ih =>
    obtain ⟨r, hr⟩ := Option.isSome_iff_exists.mp (h p (List.mem_cons_self p ps))
    obtain ⟨rows, hrows⟩ := ih (fun q hq => h q (List.mem_cons_of_mem p hq))
    exact ⟨r :: rows, by simp [mapRows, hr, hrows]⟩

lemma mapRows_length {α β : Type} (f : α → Option β) :
    ∀ (l : List α) (rows : List β), mapRows f l = some rows → rows.length = l.length := by
  intro l
  induction l with
  | nil => intro rows h; simp [mapRows] at h; simp [← h]
  | cons p ps ih =>
    intro rows h
    unfold mapRows at h
    cases hf : f p with
    | none => rw [hf] at h; simp at h
    | some r =>
      rw [hf] at h
      cases hm : mapRows f ps with
      | none => rw [hm] at h; simp at h
      | some rs =>
        rw [hm] at h
        simp at h
        subst h
        simp [ih rs hm]

lemma mapRows_map_eq {α β γ : Type} (f : α → Option β) (g : β → γ) (h2 : α → γ) :
    ∀ (l : List α) (rows : List β), mapRows f l = some rows →
      (∀ p ∈ l, ∀ r, f p = some r → g r = h2 p) → rows.map g = l.map h2 := by
  intro l
  induction l with
  | nil => intro rows h _; simp [mapRows] at h; simp [← h]
  | cons p ps ih =>
    intro rows h hg
    unfold mapRows at h
    cases hf : f p with
    | none => rw [hf] at h; simp at h
    | some r =>
      rw [hf] at h
      cases hm : mapRows f ps with
      | none => rw [hm] at h; simp at h
      | some rs =>
        rw [hm] at h
        simp at h
        subst h
        have hhead := hg p (List.mem_cons_self p ps) r hf
        have htail := ih rs hm (fun q hq => hg q (List.mem_cons_of_mem p hq))
        simp [hhead, htail]

lemma mapRows_forall {α β : Type} (f : α → Option β) (Q : β → Prop) :
    ∀ (l : List α) (rows : List β), mapRows f l = some rows →
      (∀ p ∈ l, ∀ r, f p = some r → Q r) → ∀ r ∈ rows, Q r := by
  intro l
  induction l with
  | nil =>
    intro rows h _
    simp [mapRows] at h
    subst h
    intro x hx
    simp at hx
  | cons p ps ih =>
    intro rows h hq
    unfold mapRows at h
    cases hf : f p with
    | none => rw [hf] at h; simp at h
    | some r =>
      rw [hf] at h
      cases hm : mapRows f ps with
      | none => rw [hm] at h; simp at h
      | some rs =>
        rw [hm] at h
        simp at h
        subst h
        intro x hx
        rcases List.mem_cons.mp hx with hx | hx
        · exact hx ▸ hq p (List.mem_cons_self p ps) r hf
        · exact ih rs hm (fun q hqm => hq q (List.mem_cons_of_mem p hqm)) x hx

lemma data_eq_nil_iff (s : String) : s.data = [] ↔ s = "" := by
  constructor
  · intro h
    cases s with
    | mk data =>
      simp only at h
      rw [show data = [] from h]
  · intro h
    rw [h]

lemma docOk_iff (o : Option String) : docOk o = true ↔ ∃ d, o = some d ∧ d ≠ "" := by
  cases o with
  | none => simp [docOk]
  | some d =>
    by_cases h : d = "" <;> simp [docOk, h]

lemma splitlinesHead_isSome {d : String} (h : d ≠ "") :
    ∃ fl, splitlinesHead d = some fl := by
  unfold splitlinesHead
  cases hd : d.data with
  | nil => exact absurd ((data_eq_nil_iff d).mp hd) h
  | cons c cs => exact ⟨_, rfl⟩

lemma modelRowOfLine_head (tablefmt name line : String) :
    (modelRowOfLine tablefmt name line).headD none = some name := by
  unfold modelRowOfLine
  split
  · simp
  · split <;> simp

lemma modelLine_isSome_head (tablefmt name : String) (m : ModelEntry)
    (h : docOk m.doc = true) :
    ∃ row, modelLine tablefmt name m = some row ∧ row.headD none = some name := by
  obtain ⟨d, hd, hne⟩ := (docOk_iff m.doc).mp h
  obtain ⟨fl, hfl⟩ := splitlinesHead_isSome hne
  exact ⟨modelRowOfLine tablefmt name fl, by simp [modelLine, hd, hfl],
    modelRowOfLine_head tablefmt name fl⟩

lemma getLine_isSome_head (submodule tablefmt name : String) (v : Entry)
    (h : docOk v.doc = true) :
    ∃ row, getLine submodule tablefmt name v = some row ∧ row.headD none = some name := by
  obtain ⟨d, hd, hne⟩ := (docOk_iff v.doc).mp h
  obtain ⟨fl, hfl⟩ := splitlinesHead_isSome hne
  by_cases hrst : tablefmt = "rst"
  · exact ⟨[some name, some (":class:`poem." ++ submodule ++ "." ++ name ++ "`")],
      by simp [getLine, hrst], rfl⟩
  by_cases hgh : tablefmt = "github"
  · cases hna : v.nameAttr with
    | none =>
      exact ⟨[some name, some ("`poem." ++ submodule ++ "." ++ name ++ "`"), v.classDoc],
        by simp [getLine, hrst, hgh, hna], rfl⟩
    | some ref =>
      exact ⟨[some name, some ("`poem." ++ submodule ++ "." ++ ref ++ "`"), some fl],
        by simp [getLine, hrst, hgh, hna, hd, hfl], rfl⟩
  · exact ⟨[some name, some fl], by simp [getLine, hrst, hgh, hd, hfl], rfl⟩

lemma projection_spec {E : Type} (f : String × E → Option (List (Option String)))
    (R : List (String × E))
    (hsome : ∀ p ∈ sortByName R, ∃ row, f p = some row ∧ row.headD none = some p.1) :
    ∃ rows, mapRows f (sortByName R) = some rows ∧ rows.length = R.length ∧
      rows.map (fun r => r.headD none) = (sortByName R).map (fun p => some p.1) := by
  obtain ⟨rows, hrows⟩ := mapRows_some_of_forall f (sortByName R) (fun p hp => by
    obtain ⟨row, hr, _⟩ := hsome p hp
    simp [hr])
  refine ⟨rows, hrows, ?_, ?_⟩
  · rw [mapRows_length f _ rows hrows, (sortByName_perm R).length_eq]
  · exact mapRows_map_eq f (fun r => r.headD none) (fun p => some p.1) _ rows hrows
      (fun p hp r hr => by
        obtain ⟨row, hrow, hhead⟩ := hsome p hp
        rw [hrow] at hr
        injection hr with hr
        subst hr
        exact hhead)

/-- C1: for every registry and every table format (including unrecognized
ones), the row projections `_get_lines` and `_get_model_lines` yield exactly
one row per registry entry, none skipped, in ascending order of entry name.
The hypotheses state the registry interface contract (§6 of the spec): every
entry exposes a non-empty documentation string, so the per-entry generator
body cannot raise. -/
theorem c1_projection_count_and_order
    (R : List (String × Entry)) (M : List (String × ModelEntry))
    (tablefmt submodule : String)
    (hR : ∀ p ∈ R, docOk p.2.doc = true)
    (hM : ∀ p ∈ M, docOk p.2.doc = true) :
    (∃ rows, getLines R tablefmt submodule = some rows ∧
       rows.length = R.length ∧
       rows.map (fun r => r.headD none) = (sortByName R).map (fun p => some p.1) ∧
       List.Sorted (fun a b : String => pyStrLe a b = true) ((sortByName R).map Prod.fst) ∧
       List.Perm ((sortByName R).map Prod.fst) (R.map Prod.fst)) ∧
    (∃ rows, getModelLines tablefmt M = some rows ∧
       rows.length = M.length ∧
       rows.map (fun r => r.headD none) = (sortByName M).map (fun p => some p.1) ∧
       List.Sorted (fun a b : String => pyStrLe a b = true) ((sortByName M).map Prod.fst) ∧
       List.Perm ((sortByName M).map Prod.fst) (M.map Prod.fst)) := by
  constructor
  · obtain ⟨rows, h1, h2, h3⟩ :=
      projection_spec (fun p => getLine submodule tablefmt p.1 p.2) R
        (fun p hp =>
          getLine_isSome_head submodule tablefmt p.1 p.2
            (hR p ((sortByName_perm R).subset hp)))
    exact ⟨rows, h1, h2, h3, sortByName_names_sorted R,
      (sortByName_perm R).map Prod.fst⟩
  · obtain ⟨rows, h1, h2, h3⟩ :=
      projection_spec (fun p => modelLine tablefmt p.1 p.2) M
        (fun p hp =>
          modelLine_isSome_head tablefmt p.1 p.2
            (hM p ((sortByName_perm M).subset hp)))
    exact ⟨rows, h1, h2, h3, sortByName_names_sorted M,
      (sortByName_perm M).map Prod.fst⟩

/-- Witness for C1 at a concrete two-entry registry, a one-entry model
registry, and an unrecognized format value. -/
theorem c1_projection_count_and_order_witness :
    (∀ p ∈ [("beta", Entry.mk (some "Beta") (some "A beta thing.") none),
            ("alpha", Entry.mk (some "Alpha") (some "An alpha thing.") none)],
        docOk p.2.doc = true) ∧
    (∃ rows,
      getLines [("beta", Entry.mk (some "Beta") (some "A beta thing.") none),
                ("alpha", Entry.mk (some "Alpha") (some "An alpha thing.") none)]
        "mediawiki" "datasets" = some rows ∧ rows.length = 2) ∧
    (∃ rows,
      getModelLines "mediawiki"
        [("TransE", ModelEntry.mk (some "TransE model [smith2020]"))] = some rows ∧
      rows.length = 1) := by
  refine ⟨by decide, ?_, ?_⟩
  · obtain ⟨rows, h1, h2, -⟩ :=
      (c1_projection_count_and_order
        [("beta", Entry.mk (some "Beta") (some "A beta thing.") none),
         ("alpha", Entry.mk (some "Alpha") (some "An alpha thing.") none)]
        [("TransE", ModelEntry.mk (some "TransE model [smith2020]"))]
        "mediawiki" "datasets" (by decide) (by decide)).1
    exact ⟨rows, h1, h2⟩
  · obtain ⟨rows, h1, h2, -⟩ :=
      (c1_projection_count_and_order
        [("beta", Entry.mk (some "Beta") (some "A beta thing.") none),
         ("alpha", Entry.mk (some "Alpha") (some "An alpha thing.") none)]
        [("TransE", ModelEntry.mk (some "TransE model [smith2020]"))]
        "mediawiki" "datasets" (by decide) (by decide)).2
    exact ⟨rows, h1, h2⟩

lemma mapRows_congr {α β : Type} (f g : α → Option β) (l : List α)
    (h : ∀ p ∈ l, f p = g p) : mapRows f l = mapRows g l := by
  induction l with
  | nil => rfl
  | cons p ps ih =>
    unfold mapRows
    rw [h p (List.mem_cons_self p ps), ih (fun q hq => h q (List.mem_cons_of_mem p hq))]

lemma getLine_default (submodule name : String) (v : Entry) (tablefmt : String)
    (h1 : tablefmt ≠ "rst") (h2 : tablefmt ≠ "github") :
    getLine submodule tablefmt name v = getLine submodule "plain" name v := by
  unfold getLine
  simp [h1, h2, show ("plain" : String) ≠ "rst" by decide,
    show ("plain" : String) ≠ "github" by decide]

lemma modelLine_default (name : String) (m : ModelEntry) (tablefmt : String)
    (h1 : tablefmt ≠ "rst") (h2 : tablefmt ≠ "github") :
    modelLine tablefmt name m = modelLine "plain" name m := by
  unfold modelLine modelRowOfLine
  simp [h1, h2, show ("plain" : String) ≠ "rst" by decide,
    show ("plain" : String) ≠ "github" by decide]

/-- C5: any format value other than `"rst"` and `"github"` takes the final
`else` branch of both row projectors, so its rows coincide with the
`"plain"` rows: unrecognized formats are silently treated as plain. -/
theorem c5_unknown_format_is_plain
    (R : List (String × Entry)) (M : List (String × ModelEntry))
    (tablefmt submodule : String)
    (h1 : tablefmt ≠ "rst") (h2 : tablefmt ≠ "github") :
    getLines R tablefmt submodule = getLines R "plain" submodule ∧
    getModelLines tablefmt M = getModelLines "plain" M := by
  constructor
  · exact mapRows_congr _ _ (sortByName R)
      (fun p _ => getLine_default submodule p.1 p.2 tablefmt h1 h2)
  · exact mapRows_congr _ _ (sortByName M)
      (fun p _ => modelLine_default p.1 p.2 tablefmt h1 h2)

/-- Witness for C5 at the unrecognized format value `"latex"`. -/
theorem c5_unknown_format_is_plain_witness :
    getLines [("ds", Entry.mk (some "Ds") (some "A data set.") none)] "latex" "datasets" =
      getLines [("ds", Entry.mk (some "Ds") (some "A data set.") none)] "plain" "datasets" ∧
    getModelLines "latex" [("TransE", ModelEntry.mk (some "TransE model [smith2020]"))] =
      getModelLines "plain" [("TransE", ModelEntry.mk (some "TransE model [smith2020]"))] :=
  c5_unknown_format_is_plain
    [("ds", Entry.mk (some "Ds") (some "A data set.") none)]
    [("TransE", ModelEntry.mk (some "TransE model [smith2020]"))]
    "latex" "datasets" (by decide) (by decide)

lemma findIdxOpt_append_cons (c : Char) (pre rest : List Char) (h : c ∉ pre) :
    findIdxOpt c (pre ++ c :: rest) = some pre.length := by
  induction pre with
  | nil => simp [findIdxOpt]
  | cons a as ih =>
    have ha : ¬(a = c) := fun he => h (he ▸ List.mem_cons_self a as)
    have h' : c ∉ as := fun hm => h (List.mem_cons_of_mem a hm)
    simp [findIdxOpt, ha, ih h']

lemma data_append (a b : String) : (a ++ b).data = a.data ++ b.data := rfl

lemma asString_data (s : String) : s.data.asString = s := by
  cases s
  rfl

lemma pyFind_eq (s : String) (c : Char) (pre rest : List Char)
    (hdata : s.data = pre ++ c :: rest) (hpre : c ∉ pre) :
    pyFind s c = (pre.length : Int) := by
  unfold pyFind
  rw [hdata, findIdxOpt_append_cons c pre rest hpre]

lemma pyIdx_natCast (n : Nat) (m : Nat) : pyIdx n (m : Int) = m := by
  unfold pyIdx
  split <;> omega

lemma pySliceL_from (A B : List Char) (a b : Int) (m : Nat)
    (ha : a = (A.length : Int)) (hb : b = (A.length : Int) + (m : Int)) :
    pySliceL (A ++ B) a b = B.take m := by
  subst ha hb
  unfold pySliceL
  have h1 : pyIdx (A ++ B).length (A.length : Int) = A.length :=
    pyIdx_natCast _ _
  have h2 : pyIdx (A ++ B).length ((A.length : Int) + (m : Int)) = A.length + m := by
    have : ((A.length : Int) + (m : Int)) = ((A.length + m : Nat) : Int) := by push_cast; ring
    rw [this, pyIdx_natCast]
  rw [h1, h2, List.take_append, List.drop_left]

lemma pySliceL_extract (A B C : List Char) (a b : Int)
    (ha : a = (A.length : Int)) (hb : b = (A.length : Int) + (B.length : Int)) :
    pySliceL (A ++ (B ++ C)) a b = B := by
  rw [pySliceL_from A (B ++ C) a b B.length ha hb, List.take_left]

lemma data_lbracket : ("[" : String).data = ['['] := rfl

/-- Modelled from the spec: the citation extraction as §4.1 and the claim
describe it — locate the first `[` and the first `]` AFTER it, take the 4
characters immediately preceding that `]` as the year and the characters
strictly between the `[` and the start of the year as the author.  (The
source instead takes the first `]` of the whole line; this definition
exists only to compare the two.) -/
def parseCitationSpec (line : String) : String × String :=
  let l := pyFind line '['
  let r : Int :=
    match findIdxOpt ']' (line.data.drop (l.toNat + 1)) with
    | some k => ((l.toNat + 1 + k : Nat) : Int)
    | none => -1
  (pySlice line (1 + l) (r - 4), pySlice line (r - 4) r)

/-- Counterexample for C2: on a first line whose first `]` precedes its
first `[`, the code does NOT use "the first `]` after the `[`": it uses the
first `]` of the whole line.  On `"a]b[smith2020]"` the claim's described
parse yields `("smith", "2020")` but the code yields `("smith20", "")`. -/
theorem c2_counterexample :
    parseCitationSpec "a]b[smith2020]" = ("smith", "2020") ∧
    parseCitation "a]b[smith2020]" = ("smith20", "") ∧
    parseCitation "a]b[smith2020]" ≠ parseCitationSpec "a]b[smith2020]" := by
  refine ⟨by decide, by decide, by decide⟩

/-- C2 amended: the parser locates the first `[` and the first `]` of the
WHOLE line (not necessarily after the `[`); the year is the 4 characters
immediately preceding that `]` and the author the characters strictly
between the `[` and the start of the year.  So whenever the first `[` and
the first `]` of the line delimit a trailing `[<author><4-char year>]`
token (no earlier `]` in the line), the parse is `(author, year)`; and for
a line ending in `[smith2020]` the `plain` model row is
`(<name>, "Smith, 2020")`. -/
theorem c2_citation_parse_amended (pre author year suffix : String)
    (hpreL : '[' ∉ pre.data) (hpreR : ']' ∉ pre.data)
    (hauthor : ']' ∉ author.data) (hyear : ']' ∉ year.data)
    (hlen : year.data.length = 4) :
    parseCitation (pre ++ "[" ++ author ++ year ++ "]" ++ suffix) = (author, year) ∧
    getModelLines "plain"
        [("Example", ModelEntry.mk (some "An example model. [smith2020]"))] =
      some [[some "Example", some "Smith, 2020"]] := by
  refine ⟨?_, by decide⟩
  have hL : (pre ++ "[" ++ author ++ year ++ "]" ++ suffix).data =
      pre.data ++ '[' :: (author.data ++ (year.data ++ (']' :: suffix.data))) := by
    simp [data_append, List.append_assoc]
  have hsplit1 : (pre ++ "[" ++ author ++ year ++ "]" ++ suffix).data =
      (pre.data ++ ['[']) ++ (author.data ++ (year.data ++ (']' :: suffix.data))) := by
    rw [hL]
    simp [List.append_assoc]
  have hsplit2 : (pre ++ "[" ++ author ++ year ++ "]" ++ suffix).data =
      (pre.data ++ '[' :: author.data) ++ (year.data ++ (']' :: suffix.data)) := by
    rw [hL]
    simp [List.append_assoc]
  have hfindL : pyFind (pre ++ "[" ++ author ++ year ++ "]" ++ suffix) '[' =
      (pre.data.length : Int) :=
    pyFind_eq _ '[' pre.data _ hL hpreL
  have hnotR : ']' ∉ pre.data ++ '[' :: (author.data ++ year.data) := by
    intro hmem
    simp only [List.mem_append, List.mem_cons] at hmem
    rcases hmem with h | h | h | h
    · exact hpreR h
    · exact absurd h (by decide)
    · exact hauthor h
    · exact hyear h
  have hfindR : pyFind (pre ++ "[" ++ author ++ year ++ "]" ++ suffix) ']' =
      ((pre.data ++ '[' :: (author.data ++ year.data)).length : Int) := by
    refine pyFind_eq _ ']' _ suffix.data ?_ hnotR
    rw [hL]
    simp [List.append_assoc]
  have hlen2 : (pre.data ++ '[' :: (author.data ++ year.data)).length =
      pre.data.length + author.data.length + 5 := by
    simp [List.length_append, hlen]
    omega
  simp only [parseCitation, hfindL, hfindR, hlen2]
  have hauth_eq : pySlice (pre ++ "[" ++ author ++ year ++ "]" ++ suffix)
      (1 + (pre.data.length : Int))
      (((pre.data.length + author.data.length + 5 : Nat) : Int) - 4) = author := by
    unfold pySlice
    rw [hsplit1, pySliceL_extract (pre.data ++ ['[']) author.data
        (year.data ++ (']' :: suffix.data)) _ _
        (by push_cast [List.length_append, List.length_singleton]; omega)
        (by push_cast [List.length_append, List.length_singleton]; omega)]
    exact asString_data author
  have hyear_eq : pySlice (pre ++ "[" ++ author ++ year ++ "]" ++ suffix)
      (((pre.data.length + author.data.length + 5 : Nat) : Int) - 4)
      ((pre.data.length + author.data.length + 5 : Nat) : Int) = year := by
    unfold pySlice
    rw [hsplit2, pySliceL_extract (pre.data ++ '[' :: author.data) year.data
        (']' :: suffix.data) _ _
        (by push_cast [List.length_append, List.length_cons]; omega)
        (by push_cast [List.length_append, List.length_cons, hlen]; omega)]
    exact asString_data year
  rw [hauth_eq, hyear_eq]

/-- Witness for the amended C2 at `"See [smith2020]"`. -/
theorem c2_citation_parse_amended_witness :
    parseCitation ("See " ++ "[" ++ "smith" ++ "2020" ++ "]" ++ "") = ("smith", "2020") ∧
    getModelLines "plain"
        [("Example", ModelEntry.mk (some "An example model. [smith2020]"))] =
      some [[some "Example", some "Smith, 2020"]] :=
  c2_citation_parse_amended "See " "smith" "2020" ""
    (by decide) (by decide) (by decide) (by decide) (by decide)

lemma data_asString (l : List Char) : l.asString.data = l := rfl

lemma string_eq_of_data (a b : String) (h : a.data = b.data) : a = b := by
  cases a with
  | mk da =>
    cases b with
    | mk db =>
      simp only at h
      rw [show da = db from h]

/-- Modelled from the spec: the bracket span of a line — from the first `[`
through the first `]`, inclusive of that `]` and nothing beyond it. -/
def bracketSpan (line : String) : String :=
  pySlice line (pyFind line '[') (pyFind line ']' + 1)

/-- Counterexample for C3: the `rst` third field is `line[l : r + 2]`, which
includes ONE character beyond the trailing `]` when the line continues
(here the reST reference underscore).  So it is not "exactly the bracket
span and nothing beyond it". -/
theorem c3_counterexample :
    getModelLines "rst"
        [("M", ModelEntry.mk (some "An algorithm. [borders2017]_ and more."))] =
      some [[some "M", some ":class:`poem.models.M`", some "[borders2017]_"]] ∧
    bracketSpan "An algorithm. [borders2017]_ and more." = "[borders2017]" ∧
    (some ("[borders2017]_" : String) : Option String) ≠
      some (bracketSpan "An algorithm. [borders2017]_ and more.") := by
  refine ⟨by decide, by decide, by decide⟩

/-- C3 amended: for a model documentation first line of shape
`<pre>[<body>]<suffix>` (no bracket characters before the span, no `]`
inside it), the third field of the `rst` row is the bracket span PLUS the
single character immediately following the `]` when the line continues —
exactly the span only when the line ends at the `]`. -/
theorem c3_rst_citation_field_amended (pre body suffix name : String)
    (hpreL : '[' ∉ pre.data) (hpreR : ']' ∉ pre.data) (hbody : ']' ∉ body.data) :
    modelRowOfLine "rst" name (pre ++ "[" ++ body ++ "]" ++ suffix) =
      [some name, some (":class:`poem.models." ++ name ++ "`"),
        some ("[" ++ body ++ "]" ++ (suffix.data.take 1).asString)] := by
  have hL : (pre ++ "[" ++ body ++ "]" ++ suffix).data =
      pre.data ++ '[' :: (body.data ++ (']' :: suffix.data)) := by
    simp [data_append, List.append_assoc]
  have hfindL : pyFind (pre ++ "[" ++ body ++ "]" ++ suffix) '[' =
      (pre.data.length : Int) :=
    pyFind_eq _ '[' pre.data _ hL hpreL
  have hnotR : ']' ∉ pre.data ++ '[' :: body.data := by
    intro hmem
    simp only [List.mem_append, List.mem_cons] at hmem
    rcases hmem with h | h | h
    · exact hpreR h
    · exact absurd h (by decide)
    · exact hbody h
  have hfindR : pyFind (pre ++ "[" ++ body ++ "]" ++ suffix) ']' =
      ((pre.data ++ '[' :: body.data).length : Int) := by
    refine pyFind_eq _ ']' _ suffix.data ?_ hnotR
    rw [hL]
    simp [List.append_assoc]
  have hthird : pySlice (pre ++ "[" ++ body ++ "]" ++ suffix)
      ((pre.data.length : Int)) (((pre.data ++ '[' :: body.data).length : Int) + 2) =
      "[" ++ body ++ "]" ++ (suffix.data.take 1).asString := by
    unfold pySlice
    rw [hL, pySliceL_from pre.data ('[' :: (body.data ++ (']' :: suffix.data)))
        _ _ (body.data.length + 3) rfl
        (by push_cast [List.length_append, List.length_cons]; omega)]
    refine string_eq_of_data _ _ ?_
    rw [data_asString]
    have h1 : body.data.length + 3 = (body.data.length + 2) + 1 := by omega
    rw [h1, List.take_succ_cons]
    have h2 : body.data.length + 2 = body.data.length + 2 := rfl
    rw [List.take_append]
    simp [data_append, data_asString, List.take_succ_cons]
  simp only [modelRowOfLine, if_pos rfl, hfindL, hfindR]
  rw [hthird]
  simp

/-- Witness for the amended C3, once with a continuing line (the reST
underscore is included) and once with a line ending at the `]`. -/
theorem c3_rst_citation_field_amended_witness :
    modelRowOfLine "rst" "M" ("An algorithm. " ++ "[" ++ "borders2017" ++ "]" ++ "_ and more.") =
      [some "M", some (":class:`poem.models.M`"),
        some ("[" ++ "borders2017" ++ "]" ++ (("_ and more." : String).data.take 1).asString)] ∧
    modelRowOfLine "rst" "M" ("An algorithm. " ++ "[" ++ "borders2017" ++ "]" ++ "") =
      [some "M", some (":class:`poem.models.M`"),
        some ("[" ++ "borders2017" ++ "]" ++ (("" : String).data.take 1).asString)] :=
  ⟨c3_rst_citation_field_amended "An algorithm. " "borders2017" "_ and more." "M"
      (by decide) (by decide) (by decide),
    c3_rst_citation_field_amended "An algorithm. " "borders2017" "" "M"
      (by decide) (by decide) (by decide)⟩

/-- C4: for a model whose documentation first line contains no `[` and no
`]`, the row projection completes in each of the three formats: Python
`str.find` returns the `-1` sentinel and slicing with negative bounds is
total, so a row is produced (with degenerate substrings) and nothing is
raised. -/
theorem c4_missing_brackets_no_raise (name doc line : String)
    (hfl : splitlinesHead doc = some line)
    (hl : '[' ∉ line.data) (hr : ']' ∉ line.data) :
    (∃ rows, getModelLines "plain" [(name, ModelEntry.mk (some doc))] = some rows) ∧
    (∃ rows, getModelLines "rst" [(name, ModelEntry.mk (some doc))] = some rows) ∧
    (∃ rows, getModelLines "github" [(name, ModelEntry.mk (some doc))] = some rows) := by
  have key : ∀ tablefmt, getModelLines tablefmt [(name, ModelEntry.mk (some doc))] =
      some [modelRowOfLine tablefmt name line] := by
    intro tablefmt
    simp [getModelLines, sortByName, List.insertionSort, List.orderedInsert,
      mapRows, modelLine, hfl]
  exact ⟨⟨_, key "plain"⟩, ⟨_, key "rst"⟩, ⟨_, key "github"⟩⟩

/-- Witness for C4 at the spec's example line `"A model with no citation"`.
-/
theorem c4_missing_brackets_no_raise_witness :
    splitlinesHead "A model with no citation" = some "A model with no citation" ∧
    ((∃ rows, getModelLines "plain"
        [("M", ModelEntry.mk (some "A model with no citation"))] = some rows) ∧
     (∃ rows, getModelLines "rst"
        [("M", ModelEntry.mk (some "A model with no citation"))] = some rows) ∧
     (∃ rows, getModelLines "github"
        [("M", ModelEntry.mk (some "A model with no citation"))] = some rows)) :=
  ⟨by decide,
    c4_missing_brackets_no_raise "M" "A model with no citation" "A model with no citation"
      (by decide) (by decide) (by decide)⟩

/-- Counterexample for C6: an entry whose instance-level and type-level
documentation are both absent does NOT surface a failure in the `github`
projection — the per-entry generator body yields a row whose third field is
the Python `None` (`Option.none`), propagated into table rendering. -/
theorem c6_counterexample :
    getLine "evaluators" "github" "foo" (Entry.mk (some "Foo") none none) =
      some [some "foo", some "`poem.evaluators.foo`", none] ∧
    (getLine "evaluators" "github" "foo" (Entry.mk (some "Foo") none none)).isSome = true := by
  refine ⟨by decide, by decide⟩

/-- C6 amended: the `github` projection falls back from instance-level to
type-level documentation (the `try`/`except AttributeError`), and when the
instance-level documentation is absent the row is still produced carrying
the type-level value unchanged — including `none` when that too is absent;
no failure is surfaced. -/
theorem c6_doc_fallback_amended (submodule name : String)
    (na cd : Option String) :
    getLine submodule "github" name (Entry.mk na none cd) =
      some [some name, some ("`poem." ++ submodule ++ "." ++ name ++ "`"), cd] ∧
    (∀ (nm d fl : String), splitlinesHead d = some fl →
      getLine submodule "github" name (Entry.mk (some nm) (some d) cd) =
        some [some name, some ("`poem." ++ submodule ++ "." ++ nm ++ "`"), some fl]) := by
  constructor
  · cases na <;>
      simp [getLine, show ("github" : String) ≠ "rst" by decide]
  · intro nm d fl hfl
    simp [getLine, hfl, show ("github" : String) ≠ "rst" by decide]

/-- Witness for the amended C6: the double-absence case propagates `none`,
the type-level fallback case carries the class documentation, and the
normal case uses the instance-level first line. -/
theorem c6_doc_fallback_amended_witness :
    getLine "evaluators" "github" "metric" (Entry.mk none none none) =
      some [some "metric", some "`poem.evaluators.metric`", none] ∧
    getLine "evaluators" "github" "metric" (Entry.mk (some "Foo") none (some "Type doc.")) =
      some [some "metric", some "`poem.evaluators.metric`", some "Type doc."] ∧
    getLine "evaluators" "github" "metric"
        (Entry.mk (some "Foo") (some "Inst doc.") (some "Type doc.")) =
      some [some "metric", some "`poem.evaluators.Foo`", some "Inst doc."] :=
  ⟨(c6_doc_fallback_amended "evaluators" "metric" none none).1,
    (c6_doc_fallback_amended "evaluators" "metric" (some "Foo") (some "Type doc.")).1,
    (c6_doc_fallback_amended "evaluators" "metric" (some "Foo") (some "Type doc.")).2
      "Foo" "Inst doc." "Inst doc." (by decide)⟩

lemma getLines_isSome (R : List (String × Entry)) (tablefmt submodule : String)
    (h : ∀ p ∈ R, docOk p.2.doc = true) :
    ∃ rows, getLines R tablefmt submodule = some rows := by
  obtain ⟨rows, h1, -, -⟩ :=
    projection_spec (fun p => getLine submodule tablefmt p.1 p.2) R
      (fun p hp =>
        getLine_isSome_head submodule tablefmt p.1 p.2
          (h p ((sortByName_perm R).subset hp)))
  exact ⟨rows, h1⟩

lemma getModelLines_isSome (M : List (String × ModelEntry)) (tablefmt : String)
    (h : ∀ p ∈ M, docOk p.2.doc = true) :
    ∃ rows, getModelLines tablefmt M = some rows := by
  obtain ⟨rows, h1, -, -⟩ :=
    projection_spec (fun p => modelLine tablefmt p.1 p.2) M
      (fun p hp =>
        modelLine_isSome_head tablefmt p.1 p.2
          (h p ((sortByName_perm M).subset hp)))
  exact ⟨rows, h1⟩

/-- C7: the composite `github-readme` command emits exactly the five
sections models, data sets, training modes, evaluators, metrics, in that
fixed order, each preceded by its `### <Section Title>` header, each table
produced with the `github` format; the `'\n'` prefix of every later header
payload is the single blank separator line (`click.echo` appends the final
newline of each payload).  No registry is skipped: the emitted list always
has all five headers, also for empty registries. -/
theorem c7_github_readme_sections
    (render : List (List (Option String)) → String)
    (ms : List (String × ModelEntry)) (ds ts es mets : List (String × Entry))
    (hM : ∀ p ∈ ms, docOk p.2.doc = true)
    (hD : ∀ p ∈ ds, docOk p.2.doc = true)
    (hT : ∀ p ∈ ts, docOk p.2.doc = true)
    (hE : ∀ p ∈ es, docOk p.2.doc = true)
    (hMt : ∀ p ∈ mets, docOk p.2.doc = true) :
    ∃ m d t e mt,
      getModelLines "github" ms = some m ∧
      getLines ds "github" "datasets" = some d ∧
      getLines ts "github" "training" = some t ∧
      getLines es "github" "evaluators" = some e ∧
      getLines mets "github" "evaluators" = some mt ∧
      githubReadme render ms ds ts es mets =
        some ["### Models\n", render m,
              "\n### Data Sets\n", render d,
              "\n### Training Modes\n", render t,
              "\n### Evaluators\n", render e,
              "\n### Metrics\n", render mt] := by
  obtain ⟨m, hm⟩ := getModelLines_isSome ms "github" hM
  obtain ⟨d, hd⟩ := getLines_isSome ds "github" "datasets" hD
  obtain ⟨t, ht⟩ := getLines_isSome ts "github" "training" hT
  obtain ⟨e, he⟩ := getLines_isSome es "github" "evaluators" hE
  obtain ⟨mt, hmt⟩ := getLines_isSome mets "github" "evaluators" hMt
  exact ⟨m, d, t, e, mt, hm, hd, ht, he, hmt, by
    simp only [githubReadme, hm, hd, ht, he, hmt]⟩

/-- Witness for C7 with all five registries empty: every header is still
emitted, each followed by the rendering of an empty table. -/
theorem c7_github_readme_sections_witness :
    githubReadme (fun _ => "<table>") [] [] [] [] [] =
      some ["### Models\n", "<table>",
            "\n### Data Sets\n", "<table>",
            "\n### Training Modes\n", "<table>",
            "\n### Evaluators\n", "<table>",
            "\n### Metrics\n", "<table>"] := by
  obtain ⟨m, d, t, e, mt, -, -, -, -, -, hall⟩ :=
    c7_github_readme_sections (fun _ => "<table>") [] [] [] [] []
      (by simp) (by simp) (by simp) (by simp) (by simp)
  exact hall

lemma registerAll_eq {M C : Type} (build : M → C) :
    ∀ (l : List (String × M)) (cmds : List C),
      registerAll build l cmds = cmds ++ l.map (fun p => build p.2) := by
  intro l
  induction l with
  | nil => intro cmds; simp [registerAll]
  | cons p ps ih =>
    intro cmds
    have hstep : registerAll build (p :: ps) cmds =
        registerAll build ps (cmds ++ [build p.2]) := rfl
    rw [hstep, ih]
    simp

/-- C9: the module-level loop registers exactly one dynamically built
subcommand per entry of the model registry under the `train` group — the
command list after the loop is the list before it (only extended, nothing
unregistered) followed by one built command per model, in registry order;
the loop runs at import time, before any command dispatch. -/
theorem c9_train_registration {M C : Type} (build : M → C)
    (modelValues : List (String × M)) (cmds : List C) :
    registerAll build modelValues cmds = cmds ++ modelValues.map (fun p => build p.2) ∧
    (registerAll build modelValues cmds).length = cmds.length + modelValues.length := by
  refine ⟨registerAll_eq build modelValues cmds, ?_⟩
  rw [registerAll_eq build modelValues cmds]
  simp

/-- C8: the `parameters` aggregation outputs exactly the hyperparameter
names of `BaseModule._hyperparameter_usage` that are neither among the base
constructor's (annotated) parameters nor the fixed sentinel `'init'`,
sorted ascending by name, each paired with its using-class names in sorted
order; in particular with base parameters `{a, b}` and usages
`{a: {X}, c: {Y, Z}}` the result is `[("c", ["Y", "Z"])]`. -/
theorem c8_parameters_aggregation (base : List String)
    (usage : List (String × List String)) :
    List.Sorted (fun a b : String => pyStrLe a b = true)
      ((parametersOutput base usage).map Prod.fst) ∧
    (∀ p ∈ parametersOutput base usage,
      p.1 ∉ base ∧ p.1 ≠ "init" ∧
      ∃ vs, (p.1, vs) ∈ usage ∧
        p.2 = List.insertionSort (fun a b => pyStrLe a b = true) vs ∧
        List.Sorted (fun a b : String => pyStrLe a b = true) p.2) ∧
    (∀ q ∈ usage, q.1 ∉ base → q.1 ≠ "init" →
      (q.1, List.insertionSort (fun a b => pyStrLe a b = true) q.2) ∈
        parametersOutput base usage) ∧
    parametersOutput ["a", "b"] [("a", ["X"]), ("c", ["Z", "Y"])] = [("c", ["Y", "Z"])] := by
  haveI : IsTotal String (fun a b => pyStrLe a b = true) := ⟨pyStrLe_total⟩
  haveI : IsTrans String (fun a b => pyStrLe a b = true) :=
    ⟨fun a b c h1 h2 => pyStrLe_trans a b c h1 h2⟩
  have hdef : parametersOutput base usage =
      (sortByName (usage.filter (fun p => !((base ++ ["init"]).contains p.1)))).map
        (fun p => (p.1, List.insertionSort (fun a b => pyStrLe a b = true) p.2)) := rfl
  refine ⟨?_, ?_, ?_, by decide⟩
  · rw [hdef, List.map_map]
    have hfg : (Prod.fst ∘ (fun p : String × List String =>
        (p.1, List.insertionSort (fun a b => pyStrLe a b = true) p.2))) = Prod.fst := rfl
    rw [hfg]
    exact sortByName_names_sorted _
  · intro p hp
    rw [hdef] at hp
    obtain ⟨q, hq_sorted, hgq⟩ := List.mem_map.mp hp
    have hq_filtered : q ∈ usage.filter (fun p => !((base ++ ["init"]).contains p.1)) :=
      (sortByName_perm _).subset hq_sorted
    have hq_usage : q ∈ usage := (List.mem_filter.mp hq_filtered).1
    have hq_pred := (List.mem_filter.mp hq_filtered).2
    simp only [Bool.not_eq_true'] at hq_pred
    have hq_notin : q.1 ∉ base ++ ["init"] := by simpa using hq_pred
    have h1 : q.1 ∉ base := fun h => hq_notin (List.mem_append.mpr (Or.inl h))
    have h2 : q.1 ≠ "init" := fun h => hq_notin (List.mem_append.mpr (Or.inr (by simp [h])))
    refine hgq ▸ ⟨h1, h2, q.2, by simpa using hq_usage, rfl, ?_⟩
    exact List.sorted_insertionSort _ q.2
  · intro q hq hnb hni
    have hmem_f : q ∈ usage.filter (fun p => !((base ++ ["init"]).contains p.1)) :=
      List.mem_filter.mpr ⟨hq, by
        simp only [Bool.not_eq_true']
        have : q.1 ∉ base ++ ["init"] := by
          intro hmem
          rcases List.mem_append.mp hmem with h | h
          · exact hnb h
          · exact hni (by simpa using h)
        simpa using this⟩
    have hmem_s : q ∈ sortByName
        (usage.filter (fun p => !((base ++ ["init"]).contains p.1))) :=
      ((sortByName_perm _).mem_iff).mpr hmem_f
    rw [hdef]
    exact List.mem_map_of_mem _ hmem_s

/-- Witness for C8 at the spec's concrete example hierarchy. -/
theorem c8_parameters_aggregation_witness :
    ("c", List.insertionSort (fun a b => pyStrLe a b = true) ["Z", "Y"]) ∈
      parametersOutput ["a", "b"] [("a", ["X"]), ("c", ["Z", "Y"])] ∧
    parametersOutput ["a", "b"] [("a", ["X"]), ("c", ["Z", "Y"])] = [("c", ["Y", "Z"])] :=
  ⟨(c8_parameters_aggregation ["a", "b"] [("a", ["X"]), ("c", ["Z", "Y"])]).2.2.1
      ("c", ["Z", "Y"]) (by decide) (by decide) (by decide),
    (c8_parameters_aggregation ["a", "b"] [("a", ["X"]), ("c", ["Z", "Y"])]).2.2.2⟩

lemma getLines_else_rows (d : List (String × Entry)) (tablefmt submodule : String)
    (h2 : tablefmt ≠ "rst") (h3 : tablefmt ≠ "github")
    (hwf : ∀ p ∈ d, docOk p.2.doc = true) :
    ∃ rows, getLines d tablefmt submodule = some rows ∧ ∀ r ∈ rows, r.length = 2 := by
  obtain ⟨rows, hrows⟩ := getLines_isSome d tablefmt submodule hwf
  refine ⟨rows, hrows, ?_⟩
  refine mapRows_forall _ _ (sortByName d) rows hrows ?_
  intro p hp r hr
  rw [getLine_default submodule p.1 p.2 tablefmt h2 h3] at hr
  obtain ⟨dd, hd, hne⟩ := (docOk_iff p.2.doc).mp (hwf p ((sortByName_perm d).subset hp))
  obtain ⟨fl, hfl⟩ := splitlinesHead_isSome hne
  simp only [getLine, show ("plain" : String) = "rst" ↔ False by simp,
    show ("plain" : String) = "github" ↔ False by simp, if_false, hd, hfl] at hr
  simp only [Option.map_some', Option.some.injEq] at hr
  rw [← hr]
  rfl

/-- C10: for every non-model listing command invoked with a format that is
neither `"plain"`, `"rst"` nor `"github"`, the headers passed to `tabulate`
are the three-element `['Name', 'Reference', 'Description']` (the
two-element header list is chosen only for the exact string `"plain"`)
while every data row produced by `_get_lines` comes from the final `else`
branch and has only two fields — the header arity and the row arity
disagree. -/
theorem c10_header_row_arity_mismatch (tablefmt : String)
    (d : List (String × Entry))
    (h1 : tablefmt ≠ "plain") (h2 : tablefmt ≠ "rst") (h3 : tablefmt ≠ "github")
    (hwf : ∀ p ∈ d, docOk p.2.doc = true) :
    (∃ rows, datasets d tablefmt = some (["Name", "Reference", "Description"], rows) ∧
      (∀ r ∈ rows, r.length = 2)) ∧
    (∃ rows, training d tablefmt = some (["Name", "Reference", "Description"], rows) ∧
      (∀ r ∈ rows, r.length = 2)) ∧
    (∃ rows, samplers d tablefmt = some (["Name", "Reference", "Description"], rows) ∧
      (∀ r ∈ rows, r.length = 2)) ∧
    (∃ rows, evaluators d tablefmt = some (["Name", "Reference", "Description"], rows) ∧
      (∀ r ∈ rows, r.length = 2)) ∧
    (∃ rows, metrics d tablefmt = some (["Name", "Reference", "Description"], rows) ∧
      (∀ r ∈ rows, r.length = 2)) ∧
    (["Name", "Reference", "Description"] : List String).length = 3 := by
  have hhead : nonModelHeaders tablefmt = ["Name", "Reference", "Description"] := by
    simp [nonModelHeaders, h1]
  have key : ∀ submodule, ∃ rows,
      (getLines d tablefmt submodule).map
          (fun lines => (nonModelHeaders tablefmt, lines)) =
        some (["Name", "Reference", "Description"], rows) ∧
      (∀ r ∈ rows, r.length = 2) := by
    intro submodule
    obtain ⟨rows, hrows, hlen⟩ := getLines_else_rows d tablefmt submodule h2 h3 hwf
    exact ⟨rows, by simp [hrows, hhead], hlen⟩
  exact ⟨key "datasets", key "training", key "sampling", key "evaluators",
    key "evaluators", rfl⟩

/-- Witness for C10 at the unrecognized format `"latex"` and a one-entry
registry. -/
theorem c10_header_row_arity_mismatch_witness :
    (∃ rows, datasets [("ds", Entry.mk (some "Ds") (some "A data set.") none)] "latex" =
        some (["Name", "Reference", "Description"], rows) ∧
      (∀ r ∈ rows, r.length = 2)) ∧
    (["Name", "Reference", "Description"] : List String).length = 3 := by
  obtain ⟨hds, -, -, -, -, hlen⟩ :=
    c10_header_row_arity_mismatch "latex"
      [("ds", Entry.mk (some "Ds") (some "A data set.") none)]
      (by decide) (by decide) (by decide) (by decide)
  exact ⟨hds, hlen⟩

end Poem
